import Mathlib

/-!
# Chromatica: gradient builder, wave generator and pixel compositor

A shallow embedding of `src/main.cpp`.

Modelling conventions.

* `unsigned char` channels are `Fin 256`; every conversion to `unsigned char`
  is the explicit reduction `toUChar` (value modulo `256`).
* `float` values are rationals.  Every float operation that the theorems below
  evaluate (`i / 4`, `channel * (i / 4)`, `x * 4`, `j / 4`, `4 * 1600`) has an
  exactly representable result, so no rounding takes place in them.  The wave
  heights are stated in exact arithmetic, with the `float` constants at their
  binary32 values.
* A conversion from `float` to an integer type truncates toward zero (`truncQ`).
* `std::array` and `std::vector` are lists; a `for` loop that assigns `a[i]` is a
  fold of `List.set` over the index range.
* An out-of-range `operator[]` read on a `std::vector` is `none`.
* The outcomes of the random draws and the library functions `sin` and `PI` are
  collected in the record `Env`; a theorem quantified over `Env` holds for every
  outcome of the draws.
-/

namespace Chromatica

/-! ## Constants (main.cpp, lines 10-17) -/

def WIDTH : Nat := 1600

def HEIGHT : Nat := 900

def NUM_WAVES : Nat := 3

def WAVE_SMOOTHNESS : ℚ := 4.0

/-! ## Machine arithmetic -/

/-- An `unsigned char`. -/
abbrev UChar := Fin 256

/-- Conversion of an integer value to `unsigned char`: reduction modulo `256`. -/
def toUChar (z : Int) : UChar :=
  ⟨(z % 256).toNat, by omega⟩

/-- Conversion of a `float` to an integer type: truncation toward zero. -/
def truncQ (q : ℚ) : Int :=
  if 0 ≤ q then ⌊q⌋ else ⌈q⌉

/-- The loop `for (int i = 0; i < n; ++i) s = body(i, s);`. -/
def forLoop {σ : Type} (n : Nat) (body : Nat → σ → σ) (init : σ) : σ :=
  (List.range n).foldl (fun s i => body i s) init

/-- Number of iterations of `for (int j = 0; j < bound; ++j)` with a `float` bound:
the least natural number `j` for which `j < bound` fails. -/
def loopCount (bound : ℚ) : Nat :=
  ⌈bound⌉.toNat

/-- The read `v[j]` of a `std::vector` at an `int` index; `none` when out of range. -/
def vecAt {α : Type} (v : List α) (j : Int) : Option α :=
  if 0 ≤ j then v[j.toNat]? else none

/-! ## Colours (raylib `Color`, main.cpp lines 19-35) -/

/-- A raylib `Color`: four `unsigned char` channels. -/
structure Color where
  r : UChar
  g : UChar
  b : UChar
  a : UChar
  deriving DecidableEq, Repr

instance : Inhabited Color := ⟨⟨0, 0, 0, 0⟩⟩

/-- The four channels of a colour. -/
inductive Channel where
  | r | g | b | a
  deriving DecidableEq, Repr

/-- Channel `c` of a colour. -/
def Color.get (col : Color) : Channel → UChar
  | .r => col.r
  | .g => col.g
  | .b => col.b
  | .a => col.a

/-- `Color operator-(Color first, Color second)`: the operands are promoted to `int`,
subtracted, and the difference is converted back to `unsigned char`. -/
def Color.sub (first second : Color) : Color :=
  { r := toUChar ((first.r.val : Int) - (second.r.val : Int))
    g := toUChar ((first.g.val : Int) - (second.g.val : Int))
    b := toUChar ((first.b.val : Int) - (second.b.val : Int))
    a := toUChar ((first.a.val : Int) - (second.a.val : Int)) }

instance : Sub Color := ⟨Color.sub⟩

/-- `Color operator*(Color color, float multiplier)`: the channel is converted to
`float`, multiplied, and the product converted to `unsigned char`. -/
def Color.mul (color : Color) (multiplier : ℚ) : Color :=
  { r := toUChar (truncQ ((color.r.val : ℚ) * multiplier))
    g := toUChar (truncQ ((color.g.val : ℚ) * multiplier))
    b := toUChar (truncQ ((color.b.val : ℚ) * multiplier))
    a := toUChar (truncQ ((color.a.val : ℚ) * multiplier)) }

instance : HMul Color ℚ Color := ⟨Color.mul⟩

/-! ## Gradient builder (main.cpp lines 106-116) -/

/-- `generateGradient(from, to)`. The array starts out with unspecified contents
(here: the zero colour) and every slot is assigned by the loop. -/
def generateGradient (c_from c_to : Color) : List Color :=
  let difference := c_from - c_to
  forLoop (NUM_WAVES + 1)
    (fun (i : Nat) gradient =>
      let multiplier : ℚ := (i : ℚ) * 1.0 / ((NUM_WAVES : ℚ) + 1)
      gradient.set i (c_from - difference * multiplier))
    (List.replicate (NUM_WAVES + 1) default)

/-! ## Wave generator (main.cpp lines 51-104) -/

/-- A raylib `Vector2`. -/
structure Vector2 where
  x : ℚ
  y : ℚ
  deriving DecidableEq

instance : Inhabited Vector2 := ⟨⟨0, 0⟩⟩

/-- What `generateWaves` takes from outside the program text: the constant `PI` of
raylib, the library function `std::sin`, and the outcome of each call of
`getRandomNumber`, indexed by the loop iteration that makes the call. -/
structure Env where
  PI : ℚ
  sin : ℚ → ℚ
  /-- The draw `getRandomNumber(-OFFSET, OFFSET)` of iteration `i` in `getStartingPoints`. -/
  offset : Nat → ℚ
  /-- The draw `getWavelength()` for wave `i`. -/
  wavelength : Nat → ℚ
  /-- The draw `getAmplitude()` for wave `i`. -/
  amplitude : Nat → ℚ
  /-- The draw `getRandomNumber(0, 0)` for sample `j` of wave `i`. -/
  phase : Nat → Nat → ℚ

/-- `getStartingPoints()`. -/
def getStartingPoints (env : Env) : List Vector2 :=
  forLoop NUM_WAVES
    (fun (i : Nat) startingPoints =>
      let offset := env.offset i
      let pointY := (((i : ℚ) + 1.0) / ((NUM_WAVES : ℚ) + 1) + offset) * HEIGHT
      startingPoints.set i ⟨0, pointY⟩)
    (List.replicate NUM_WAVES default)

/-- `sinsoidPoint(x, wavelength, amplitude, phase)`. -/
def sinsoidPoint (env : Env) (x wavelength amplitude phase : ℚ) : ℚ :=
  let theta := 2 * env.PI * x / wavelength + phase
  let y := amplitude * env.sin theta
  y

/-- `generateWaves()`. -/
def generateWaves (env : Env) : List (List Vector2) :=
  let startingPoints := getStartingPoints env
  forLoop NUM_WAVES
    (fun (i : Nat) waves =>
      let wavelength := env.wavelength i
      let amplitude := env.amplitude i / 2
      let wave0 : List Vector2 :=
        List.replicate (truncQ (WAVE_SMOOTHNESS * WIDTH)).toNat default
      let wave := forLoop (loopCount (WAVE_SMOOTHNESS * WIDTH))
        (fun (j : Nat) wave =>
          let x := (j : ℚ) / WAVE_SMOOTHNESS
          let phase := env.phase i j
          let y := (startingPoints.getD i default).y
                    + sinsoidPoint env x wavelength amplitude phase
          wave.set j ⟨x, y⟩)
        wave0
      waves.set i wave)
    (List.replicate NUM_WAVES [])

/-! ## Pixel compositor (main.cpp lines 118-132) -/

/-- The loop of `calculatePixelColor`, entered at wave index `i` with `k` iterations
left, for a program whose wave count is `n`. -/
def pixelLoop (n : Nat) (x y : ℚ) (waves : List (List Vector2)) (gradient : List Color) :
    Nat → Nat → Option Color
  | 0, _ => gradient[n]?
  | k + 1, i =>
    let j := truncQ (x * WAVE_SMOOTHNESS)
    match (waves[i]?).bind (fun wave => vecAt wave j) with
    | none => none
    | some p =>
      let wavePointY := p.y
      if y ≤ wavePointY then gradient[i]? else pixelLoop n x y waves gradient k (i + 1)

/-- `calculatePixelColor` of a program compiled with wave count `n`. -/
def calculatePixelColorFor (n : Nat) (position : Vector2) (waves : List (List Vector2))
    (gradient : List Color) : Option Color :=
  let x := position.x
  let y := position.y
  pixelLoop n x y waves gradient n 0

/-- `calculatePixelColor(position, waves, gradient)`. -/
def calculatePixelColor (position : Vector2) (waves : List (List Vector2))
    (gradient : List Color) : Option Color :=
  calculatePixelColorFor NUM_WAVES position waves gradient

/-! ## Pixel loop of `main` (main.cpp lines 151-157) -/

/-- The positions the render loop composites, in the order it visits them. -/
def framePixels : List Vector2 :=
  (List.range HEIGHT).flatMap fun (y : Nat) =>
    (List.range WIDTH).map fun (x : Nat) => (⟨(x : ℚ), (y : ℚ)⟩ : Vector2)

/-! ## Definitions used by the statements -/

/-- A rational that a binary32 `float` holds exactly: an integer significand below
`2^24` scaled by a power of two within the exponent range. -/
def Binary32Representable (q : ℚ) : Prop :=
  ∃ m e : Int, |m| < 2 ^ 24 ∧ -149 ≤ e ∧ e ≤ 104 ∧ q = (m : ℚ) * (2 : ℚ) ^ e

/-- The interpolation formula of the specification for one channel,
`start - (start - end) * (i / (N + 1))`, with 8-bit wrap-around on each subtraction
and truncation toward zero on the scaling. -/
def specGradientChannel (s e : Int) (i : Nat) : Int :=
  (s - Int.tdiv (((s - e) % 256) * (i : Int)) ((NUM_WAVES : Int) + 1)) % 256

/-- Entry `i` of the gradient, as the loop body computes it. -/
def gradientEntry (c_from c_to : Color) (i : Nat) : Color :=
  c_from - (c_from - c_to) * ((i : ℚ) * 1.0 / ((NUM_WAVES : ℚ) + 1))

/-- One channel of entry `i`, in natural-number arithmetic. -/
def channelEntry (s e i : Nat) : Nat :=
  (s + 256 - ((s + 256 - e) % 256 * i / 4) % 256) % 256

/-- Channel `c` of entry `i` of `generateGradient(from, to)`. -/
def gradientChannel (c_from c_to : Color) (c : Channel) (i : Nat) : Nat :=
  (((generateGradient c_from c_to).getD i default).get c).val

/-- The monotone-interpolation property of one channel: the channel values are
non-increasing in the index when `from.c >= to.c`, non-decreasing when
`from.c <= to.c`, and every entry lies between `from.c` and `to.c`. -/
def InterpolatesMonotonically (c_from c_to : Color) (c : Channel) : Prop :=
  ((c_to.get c).val ≤ (c_from.get c).val → ∀ i j, i ≤ j → j ≤ NUM_WAVES →
      gradientChannel c_from c_to c j ≤ gradientChannel c_from c_to c i) ∧
  ((c_from.get c).val ≤ (c_to.get c).val → ∀ i j, i ≤ j → j ≤ NUM_WAVES →
      gradientChannel c_from c_to c i ≤ gradientChannel c_from c_to c j) ∧
  (∀ i, i ≤ NUM_WAVES →
      min (c_from.get c).val (c_to.get c).val ≤ gradientChannel c_from c_to c i ∧
      gradientChannel c_from c_to c i ≤ max (c_from.get c).val (c_to.get c).val)

/-- The point the inner loop of `generateWaves` stores at index `j` of wave `i`. -/
def wavePoint (env : Env) (i j : Nat) : Vector2 :=
  ⟨(j : ℚ) / WAVE_SMOOTHNESS,
    ((getStartingPoints env).getD i default).y
      + sinsoidPoint env ((j : ℚ) / WAVE_SMOOTHNESS) (env.wavelength i) (env.amplitude i / 2)
          (env.phase i j)⟩

/-- The sample `waves[i][j].y`, for indices in range. -/
def waveY (waves : List (List Vector2)) (i j : Nat) : ℚ :=
  ((waves.getD i []).getD j default).y

/-- The number of points of a wave, `WAVE_SMOOTHNESS * WIDTH`. -/
def waveSize : Nat := 6400

/-- The waves are stacked at column `j`: `waves[0][j].y <= waves[1][j].y <= ...`
through the `n` waves. -/
def StackedAt (n : Nat) (waves : List (List Vector2)) (j : Nat) : Prop :=
  ∀ i, i + 1 < n → waveY waves i j ≤ waveY waves (i + 1) j

/-- A concrete outcome of the draws: no jitter, wavelength 1000, amplitude draw 100,
and a library sine that returns 1 everywhere. -/
def sampleEnv : Env :=
  { PI := 13176795 / 4194304
    sin := fun _ => 1
    offset := fun _ => 0
    wavelength := fun _ => 1000
    amplitude := fun _ => 100
    phase := fun _ _ => 0 }

/-- Three flat waves of nine samples each, at heights 10, 20 and 30. -/
def flatWaves : List (List Vector2) :=
  [List.replicate 9 ⟨0, 10⟩, List.replicate 9 ⟨0, 20⟩, List.replicate 9 ⟨0, 30⟩]

/-- The gradient from `(100,100,100,255)` towards `(0,0,0,255)`. -/
def greyGradient : List Color :=
  [⟨100, 100, 100, 255⟩, ⟨75, 75, 75, 255⟩, ⟨50, 50, 50, 255⟩, ⟨25, 25, 25, 255⟩]

/-! ## Loops that fill an array -/

theorem forLoop_succ {σ : Type} (n : Nat) (body : Nat → σ → σ) (init : σ) :
    forLoop (n + 1) body init = body n (forLoop n body init) := by
  simp [forLoop, List.range_succ, List.foldl_append]

theorem forLoop_set_length {α : Type} (f : Nat → α) (n : Nat) (l : List α) :
    (forLoop n (fun i s => s.set i (f i)) l).length = l.length := by
  induction n with
  | zero => simp [forLoop]
  | succ n ih => rw [forLoop_succ]; simp [ih]

theorem forLoop_set_getElem? {α : Type} (f : Nat → α) (n : Nat) (l : List α) (k : Nat) :
    (forLoop n (fun i s => s.set i (f i)) l)[k]? =
      if k < n ∧ k < l.length then some (f k) else l[k]? := by
  induction n with
  | zero => simp [forLoop]
  | succ n ih =>
    rw [forLoop_succ, List.getElem?_set, ih, forLoop_set_length]
    by_cases hnk : n = k
    · subst hnk
      by_cases hl : n < l.length
      · simp [hl]
      · have : l[n]? = none := List.getElem?_eq_none (by omega)
        simp [hl, this]
    · by_cases hk : k < n
      · have : k < n + 1 := by omega
        simp [hnk, hk, this]
      · have : ¬ k < n + 1 := by omega
        simp [hnk, hk, this]

/-- A loop that assigns `a[i] = f i` for `i < n` on an array of size `n`. -/
theorem forLoop_fill {α : Type} (f : Nat → α) (n : Nat) (d : α) (k : Nat) (hk : k < n) :
    (forLoop n (fun i s => s.set i (f i)) (List.replicate n d))[k]? = some (f k) := by
  rw [forLoop_set_getElem?]
  simp [hk]

theorem lt_loopCount_iff (bound : ℚ) (j : Nat) : j < loopCount bound ↔ (j : ℚ) < bound := by
  unfold loopCount
  rw [Int.lt_toNat, Int.lt_ceil]
  simp

theorem truncQ_natCast (n : Nat) : truncQ (n : ℚ) = n := by
  simp [truncQ]

theorem truncQ_of_nonneg {q : ℚ} (h : 0 ≤ q) : truncQ q = ⌊q⌋ := by
  simp [truncQ, h]

theorem truncQ_nat_mul_div (d i m : Nat) :
    truncQ ((d : ℚ) * ((i : ℚ) * 1.0 / (m : ℚ))) = ((d * i / m : Nat) : Int) := by
  have h : ((d : ℚ) * ((i : ℚ) * 1.0 / (m : ℚ))) = (((d * i : Nat) : Int) : ℚ) / (m : ℚ) := by
    push_cast; ring
  have h0 : (0 : ℚ) ≤ (((d * i : Nat) : Int) : ℚ) / (m : ℚ) := by positivity
  rw [h, truncQ_of_nonneg h0, Rat.floor_intCast_div_natCast]
  norm_cast

/-! ## Gradient builder -/

/-- The multiplier `i / (NUM_WAVES + 1)` and the product of a channel with it are
exactly representable, so the `float` operations of `generateGradient` do not round. -/
theorem gradient_float_exact (d i : Nat) (hd : d < 256) (hi : i ≤ NUM_WAVES) :
    Binary32Representable ((i : ℚ) * 1.0 / ((NUM_WAVES : ℚ) + 1)) ∧
      Binary32Representable ((d : ℚ) * ((i : ℚ) * 1.0 / ((NUM_WAVES : ℚ) + 1))) := by
  have hi3 : i ≤ 3 := hi
  have hdi : d * i < 2 ^ 24 := by
    calc d * i ≤ 255 * 3 := Nat.mul_le_mul (by omega) hi3
      _ < 2 ^ 24 := by norm_num
  constructor
  · refine ⟨(i : Int), -2, ?_, by norm_num, by norm_num, ?_⟩
    · rw [abs_of_nonneg (Int.natCast_nonneg i)]
      have : (i : Int) ≤ 3 := by exact_mod_cast hi3
      omega
    · norm_num [NUM_WAVES]
      ring
  · refine ⟨((d * i : Nat) : Int), -2, ?_, by norm_num, by norm_num, ?_⟩
    · rw [abs_of_nonneg (Int.natCast_nonneg _)]
      exact_mod_cast hdi
    · norm_num [NUM_WAVES]
      ring

theorem generateGradient_length (c_from c_to : Color) :
    (generateGradient c_from c_to).length = NUM_WAVES + 1 := by
  unfold generateGradient
  simp only [forLoop_set_length, List.length_replicate]

theorem generateGradient_getElem? (c_from c_to : Color) (i : Nat) (hi : i ≤ NUM_WAVES) :
    (generateGradient c_from c_to)[i]? = some (gradientEntry c_from c_to i) := by
  unfold generateGradient
  exact forLoop_fill (fun i => gradientEntry c_from c_to i) (NUM_WAVES + 1) default i (by omega)

theorem toUChar_val (z : Int) : ((toUChar z).val : Int) = z % 256 := by
  simp only [toUChar]
  omega

theorem channel_val (s e : UChar) (i : Nat) :
    (toUChar ((s.val : Int) - ((toUChar (truncQ (((toUChar ((s.val : Int) - (e.val : Int))).val : ℚ)
        * ((i : ℚ) * 1.0 / ((NUM_WAVES : ℚ) + 1))))).val : Int))).val
      = channelEntry s.val e.val i := by
  have hm : ((NUM_WAVES : ℚ) + 1) = ((4 : Nat) : ℚ) := by norm_num [NUM_WAVES]
  have hs := s.isLt
  have he := e.isLt
  have hD : (toUChar ((s.val : Int) - (e.val : Int))).val = (s.val + 256 - e.val) % 256 := by
    simp only [toUChar]
    omega
  rw [hm, hD, truncQ_nat_mul_div]
  unfold channelEntry
  generalize (s.val + 256 - e.val) % 256 * i / 4 = Y
  simp only [toUChar]
  omega

theorem gradientEntry_get (c_from c_to : Color) (i : Nat) (c : Channel) :
    ((gradientEntry c_from c_to i).get c).val
      = channelEntry (c_from.get c).val (c_to.get c).val i := by
  cases c <;> exact channel_val _ _ i

theorem channelEntry_eq_spec (s e i : Nat) (hs : s < 256) (he : e < 256) :
    (channelEntry s e i : Int) = specGradientChannel s e i := by
  unfold channelEntry specGradientChannel
  have h4 : ((NUM_WAVES : Int) + 1) = 4 := by norm_num [NUM_WAVES]
  have hD : ((s : Int) - e) % 256 = (((s + 256 - e) % 256 : Nat) : Int) := by omega
  rw [h4, Int.tdiv_eq_ediv (Int.mul_nonneg (Int.emod_nonneg _ (by norm_num)) (by positivity))
    (by norm_num), hD]
  have hY : ((((s + 256 - e) % 256 : Nat) : Int) * (i : Int)) / 4
      = (((s + 256 - e) % 256 * i / 4 : Nat) : Int) := by
    push_cast
    rfl
  rw [hY]
  generalize (s + 256 - e) % 256 * i / 4 = Y
  omega

theorem Color.ext_get {p q : Color} (h : ∀ c, (p.get c).val = (q.get c).val) : p = q := by
  cases p
  cases q
  have hr := h .r
  have hg := h .g
  have hb := h .b
  have ha := h .a
  simp only [Color.get] at hr hg hb ha
  simp [Fin.ext_iff, hr, hg, hb, ha]

theorem gradientChannel_eq (c_from c_to : Color) (c : Channel) (i : Nat) (hi : i ≤ NUM_WAVES) :
    gradientChannel c_from c_to c i = channelEntry (c_from.get c).val (c_to.get c).val i := by
  unfold gradientChannel
  rw [List.getD_eq_getElem?_getD, generateGradient_getElem? _ _ _ hi]
  exact gradientEntry_get c_from c_to i c

theorem gradientEntry_zero (c_from c_to : Color) : gradientEntry c_from c_to 0 = c_from := by
  apply Color.ext_get
  intro c
  rw [gradientEntry_get]
  have := (c_from.get c).isLt
  unfold channelEntry
  omega

theorem generateGradient_eq_entries (c_from c_to : Color) :
    generateGradient c_from c_to
      = [gradientEntry c_from c_to 0, gradientEntry c_from c_to 1,
         gradientEntry c_from c_to 2, gradientEntry c_from c_to 3] := by
  apply List.ext_getElem?
  intro k
  by_cases hk : k ≤ NUM_WAVES
  · rw [generateGradient_getElem? _ _ _ hk]
    have hk3 : k ≤ 3 := hk
    interval_cases k <;> rfl
  · have hk3 : ¬ k ≤ 3 := hk
    rw [List.getElem?_eq_none (by rw [generateGradient_length]; omega),
      List.getElem?_eq_none (by simp; omega)]

theorem channelEntry_of_le (s e i : Nat) (hs : s < 256) (hes : e ≤ s) (hi : i ≤ 3) :
    channelEntry s e i = s - (s - e) * i / 4 ∧ (s - e) * i / 4 ≤ s - e := by
  have hD : (s + 256 - e) % 256 = s - e := by omega
  have hY : (s - e) * i / 4 ≤ s - e := by
    calc (s - e) * i / 4 ≤ (s - e) * 4 / 4 :=
          Nat.div_le_div_right (Nat.mul_le_mul_left _ (by omega))
      _ = s - e := by simp
  refine ⟨?_, hY⟩
  unfold channelEntry
  rw [hD]
  generalize (s - e) * i / 4 = Y at hY ⊢
  omega

theorem generateGradient_grey :
    generateGradient ⟨100, 100, 100, 255⟩ ⟨0, 0, 0, 255⟩ = greyGradient := by
  rw [generateGradient_eq_entries]
  have e : ∀ i col, (∀ c, channelEntry ((⟨100, 100, 100, 255⟩ : Color).get c).val
      ((⟨0, 0, 0, 255⟩ : Color).get c).val i = (Color.get col c).val) →
      gradientEntry ⟨100, 100, 100, 255⟩ ⟨0, 0, 0, 255⟩ i = col := by
    intro i col hc
    apply Color.ext_get
    intro c
    rw [gradientEntry_get, hc]
  rw [e 0 ⟨100, 100, 100, 255⟩ (by intro c; cases c <;> decide),
    e 1 ⟨75, 75, 75, 255⟩ (by intro c; cases c <;> decide),
    e 2 ⟨50, 50, 50, 255⟩ (by intro c; cases c <;> decide),
    e 3 ⟨25, 25, 25, 255⟩ (by intro c; cases c <;> decide)]
  rfl

theorem channelEntry_last_eq_iff (s e : Nat) (hs : s < 256) (he : e < 256) :
    channelEntry s e 3 = e ↔ s = e := by
  unfold channelEntry
  omega

/-- C1 (counterexample): for `from = (100,100,100,255)` and `to = (0,0,0,255)` the last
entry of the gradient, index `NUM_WAVES = 3`, is `(25,25,25,255)` and not the end
colour `(0,0,0,255)`. -/
theorem generateGradient_last_not_end :
    (generateGradient ⟨100, 100, 100, 255⟩ ⟨0, 0, 0, 255⟩)[NUM_WAVES]?
        = some ⟨25, 25, 25, 255⟩ ∧
      ¬ (generateGradient ⟨100, 100, 100, 255⟩ ⟨0, 0, 0, 255⟩)[NUM_WAVES]?
        = some ⟨0, 0, 0, 255⟩ := by
  rw [generateGradient_grey]
  decide

/-- C1 (amended): for every start colour `from` and end colour `to`, the last entry of
`generateGradient(from, to)` (index `NUM_WAVES = 3`) is, in every channel,
`(from.c - trunc(((from.c - to.c) mod 256) * 3 / 4)) mod 256`, three quarters of the
way from `from` towards `to`, and it equals `to.c` exactly when `from.c = to.c`; for
`from = (100,100,100,255)` and `to = (0,0,0,255)` the gradient is `(100,100,100,255)`,
`(75,75,75,255)`, `(50,50,50,255)`, `(25,25,25,255)`. -/
theorem generateGradient_last_entry (c_from c_to : Color) :
    (∃ col, (generateGradient c_from c_to)[NUM_WAVES]? = some col ∧
      ∀ c : Channel,
        ((col.get c).val : Int)
          = specGradientChannel ((c_from.get c).val : Int) ((c_to.get c).val : Int) 3 ∧
        (col.get c = c_to.get c ↔ c_from.get c = c_to.get c)) ∧
    NUM_WAVES = 3 ∧
    generateGradient ⟨100, 100, 100, 255⟩ ⟨0, 0, 0, 255⟩
      = [⟨100, 100, 100, 255⟩, ⟨75, 75, 75, 255⟩, ⟨50, 50, 50, 255⟩, ⟨25, 25, 25, 255⟩] := by
  refine ⟨⟨gradientEntry c_from c_to NUM_WAVES,
    generateGradient_getElem? _ _ _ (le_refl _), ?_⟩, rfl, generateGradient_grey⟩
  intro c
  have hs := (c_from.get c).isLt
  have he := (c_to.get c).isLt
  have hv := gradientEntry_get c_from c_to NUM_WAVES c
  refine ⟨?_, ?_⟩
  · rw [hv]
    exact channelEntry_eq_spec _ _ 3 hs he
  · rw [Fin.ext_iff, Fin.ext_iff, hv]
    exact channelEntry_last_eq_iff _ _ hs he

/-- C2: for every start colour, end colour, index `i <= NUM_WAVES` and channel `c`,
entry `i` of `generateGradient(from, to)` exists and its channel `c` equals
`(from.c - trunc(((from.c - to.c) mod 256) * i / (NUM_WAVES + 1))) mod 256`. -/
theorem generateGradient_channel_formula (c_from c_to : Color) (i : Nat) (c : Channel)
    (hi : i ≤ NUM_WAVES) :
    ∃ col, (generateGradient c_from c_to)[i]? = some col ∧
      ((col.get c).val : Int)
        = specGradientChannel ((c_from.get c).val : Int) ((c_to.get c).val : Int) i := by
  refine ⟨gradientEntry c_from c_to i, generateGradient_getElem? _ _ _ hi, ?_⟩
  rw [gradientEntry_get]
  exact channelEntry_eq_spec _ _ _ (c_from.get c).isLt (c_to.get c).isLt

theorem generateGradient_channel_formula_witness :
    (2 ≤ NUM_WAVES) ∧
    (∃ col, (generateGradient ⟨112, 31, 126, 255⟩ ⟨0, 0, 0, 255⟩)[2]? = some col ∧
      ((col.get Channel.g).val : Int)
        = specGradientChannel (((⟨112, 31, 126, 255⟩ : Color).get Channel.g).val : Int)
            (((⟨0, 0, 0, 255⟩ : Color).get Channel.g).val : Int) 2) ∧
    specGradientChannel 31 0 2 = 16 :=
  ⟨by decide, generateGradient_channel_formula _ _ 2 Channel.g (by decide), by decide⟩

/-- C3: for every start colour `from` and end colour `to`, `generateGradient(from, to)`
has exactly `NUM_WAVES + 1 = 4` entries and its entry 0 equals `from`. -/
theorem generateGradient_length_and_first (c_from c_to : Color) :
    (generateGradient c_from c_to).length = NUM_WAVES + 1 ∧ NUM_WAVES + 1 = 4 ∧
      (generateGradient c_from c_to)[0]? = some c_from := by
  refine ⟨generateGradient_length _ _, rfl, ?_⟩
  rw [generateGradient_getElem? _ _ 0 (Nat.zero_le _), gradientEntry_zero]

/-- C4 (counterexample): for `from = (0,100,100,255)` and `to = (100,0,0,255)` the red
channel of the gradient is `0, 217, 178, 139`: not non-decreasing although
`from.r <= to.r`, and not between `from.r` and `to.r`. -/
theorem interpolatesMonotonically_fails :
    ¬ InterpolatesMonotonically ⟨0, 100, 100, 255⟩ ⟨100, 0, 0, 255⟩ Channel.r := by
  intro h
  have h1 := (h.2.2 1 (by decide)).2
  rw [gradientChannel_eq _ _ _ _ (by decide)] at h1
  revert h1
  decide

/-- C4 (amended): for every channel `c` with `from.c >= to.c` the channel values of
`generateGradient(from, to)` are monotone in the index (non-increasing) and every
entry lies between `to.c` and `from.c` inclusive. -/
theorem interpolatesMonotonically_of_le (c_from c_to : Color) (c : Channel)
    (h : (c_to.get c).val ≤ (c_from.get c).val) :
    InterpolatesMonotonically c_from c_to c := by
  have hs := (c_from.get c).isLt
  have key : ∀ i, i ≤ NUM_WAVES → gradientChannel c_from c_to c i
      = (c_from.get c).val - ((c_from.get c).val - (c_to.get c).val) * i / 4
      ∧ ((c_from.get c).val - (c_to.get c).val) * i / 4
          ≤ (c_from.get c).val - (c_to.get c).val := by
    intro i hi
    rw [gradientChannel_eq _ _ _ _ hi]
    exact channelEntry_of_le _ _ _ hs h hi
  have mono : ∀ i j, i ≤ j → j ≤ NUM_WAVES →
      gradientChannel c_from c_to c j ≤ gradientChannel c_from c_to c i := by
    intro i j hij hj
    have hm : ((c_from.get c).val - (c_to.get c).val) * i / 4
        ≤ ((c_from.get c).val - (c_to.get c).val) * j / 4 :=
      Nat.div_le_div_right (Nat.mul_le_mul_left _ hij)
    rw [(key i (le_trans hij hj)).1, (key j hj).1]
    omega
  refine ⟨fun _ => mono, ?_, ?_⟩
  · intro h2 i j hij hj
    have heq : (c_from.get c).val - (c_to.get c).val = 0 := by omega
    rw [(key i (le_trans hij hj)).1, (key j hj).1, heq]
    simp
  · intro i hi
    obtain ⟨h1, h2⟩ := key i hi
    rw [h1, min_eq_right h, max_eq_left h]
    omega

theorem interpolatesMonotonically_of_le_witness :
    (((⟨100, 0, 0, 255⟩ : Color).get Channel.r).val
        ≤ ((⟨112, 31, 126, 255⟩ : Color).get Channel.r).val) ∧
      InterpolatesMonotonically ⟨112, 31, 126, 255⟩ ⟨100, 0, 0, 255⟩ Channel.r :=
  ⟨by decide, interpolatesMonotonically_of_le _ _ Channel.r (by decide)⟩

/-! ## Wave generator -/

theorem vectorSize_eq : (truncQ (WAVE_SMOOTHNESS * WIDTH)).toNat = waveSize := by
  have h : WAVE_SMOOTHNESS * (WIDTH : ℚ) = ((6400 : Nat) : ℚ) := by
    norm_num [WAVE_SMOOTHNESS, WIDTH]
  rw [h, truncQ_natCast]
  rfl

theorem loopCount_eq : loopCount (WAVE_SMOOTHNESS * WIDTH) = waveSize := by
  have h : WAVE_SMOOTHNESS * (WIDTH : ℚ) = ((6400 : Nat) : ℚ) := by
    norm_num [WAVE_SMOOTHNESS, WIDTH]
  rw [h]
  simp [loopCount, waveSize]

theorem generateWaves_length (env : Env) : (generateWaves env).length = NUM_WAVES := by
  unfold generateWaves
  simp only [forLoop_set_length, List.length_replicate]

theorem generateWaves_getElem? (env : Env) (i : Nat) (hi : i < NUM_WAVES) :
    ∃ w, (generateWaves env)[i]? = some w ∧ w.length = waveSize ∧
      ∀ j, j < waveSize → w[j]? = some (wavePoint env i j) := by
  refine ⟨forLoop (loopCount (WAVE_SMOOTHNESS * WIDTH))
      (fun j wave => wave.set j (wavePoint env i j))
      (List.replicate (truncQ (WAVE_SMOOTHNESS * WIDTH)).toNat default), ?_, ?_, ?_⟩
  · unfold generateWaves
    exact forLoop_fill
      (fun i => forLoop (loopCount (WAVE_SMOOTHNESS * WIDTH))
        (fun j wave => wave.set j (wavePoint env i j))
        (List.replicate (truncQ (WAVE_SMOOTHNESS * WIDTH)).toNat default))
      NUM_WAVES [] i hi
  · rw [forLoop_set_length, List.length_replicate, vectorSize_eq]
  · intro j hj
    rw [loopCount_eq, vectorSize_eq]
    exact forLoop_fill _ waveSize default j hj

theorem wavePoint_x (env : Env) (i j : Nat) : (wavePoint env i j).x = (j : ℚ) / 4 := by
  norm_num [wavePoint, WAVE_SMOOTHNESS]

/-- C8: for every outcome of the random draws, `generateWaves` returns exactly
`NUM_WAVES = 3` waves, each with exactly `WAVE_SMOOTHNESS * WIDTH = 6400` points whose
x-coordinate at index `j` is exactly `j / WAVE_SMOOTHNESS`; in every wave the
x-coordinates start at 0, are strictly increasing, are evenly spaced by
`1 / WAVE_SMOOTHNESS = 0.25` and stay below `WIDTH`. -/
theorem generateWaves_shape (env : Env) :
    (generateWaves env).length = NUM_WAVES ∧ NUM_WAVES = 3 ∧
    (6400 : ℚ) = WAVE_SMOOTHNESS * WIDTH ∧ 1 / WAVE_SMOOTHNESS = (0.25 : ℚ) ∧
    ∀ i : Nat, i < NUM_WAVES → ∃ w : List Vector2, (generateWaves env)[i]? = some w ∧
      w.length = 6400 ∧
      (∀ j : Nat, j < 6400 → ∃ p : Vector2, w[j]? = some p ∧ p.x = (j : ℚ) / WAVE_SMOOTHNESS ∧
        p.x < (WIDTH : ℚ)) ∧
      (∃ p : Vector2, w[0]? = some p ∧ p.x = 0) ∧
      (∀ (j k : Nat) (p q : Vector2), j < k → w[j]? = some p → w[k]? = some q → p.x < q.x) ∧
      (∀ (j : Nat) (p q : Vector2), w[j]? = some p → w[j + 1]? = some q →
        q.x = p.x + 1 / WAVE_SMOOTHNESS) := by
  refine ⟨generateWaves_length env, rfl, by norm_num [WAVE_SMOOTHNESS, WIDTH],
    by norm_num [WAVE_SMOOTHNESS], ?_⟩
  intro i hi
  obtain ⟨w, hw, hlen, hp⟩ := generateWaves_getElem? env i hi
  have hlen6 : w.length = 6400 := hlen
  have hp6 : ∀ j, j < 6400 → w[j]? = some (wavePoint env i j) := hp
  have inRange : ∀ (j : Nat) (p : Vector2), w[j]? = some p → j < 6400 := by
    intro j p hj
    by_contra hcon
    rw [List.getElem?_eq_none (by omega)] at hj
    exact Option.noConfusion hj
  have atIdx : ∀ (j : Nat) (p : Vector2), w[j]? = some p → p.x = (j : ℚ) / 4 := by
    intro j p hj
    rw [hp6 j (inRange j p hj)] at hj
    rw [← Option.some.inj hj, wavePoint_x]
  refine ⟨w, hw, hlen6, ?_, ?_, ?_, ?_⟩
  · intro j hj
    refine ⟨wavePoint env i j, hp6 j hj, ?_, ?_⟩
    · rw [wavePoint_x]; norm_num [WAVE_SMOOTHNESS]
    · rw [wavePoint_x]
      have : (j : ℚ) < 6400 := by exact_mod_cast hj
      norm_num [WIDTH]
      linarith
  · exact ⟨wavePoint env i 0, hp6 0 (by norm_num), by rw [wavePoint_x]; norm_num⟩
  · intro j k p q hjk hj hk
    rw [atIdx j p hj, atIdx k q hk]
    have : (j : ℚ) < k := by exact_mod_cast hjk
    linarith
  · intro j p q hj hk
    rw [atIdx j p hj, atIdx (j + 1) q hk]
    norm_num [WAVE_SMOOTHNESS]
    ring

theorem truncQ_of_floor_eq {q : ℚ} {j : Nat} (h : ⌊q⌋ = (j : Int)) : truncQ q = (j : Int) := by
  have h0 : (0 : Int) ≤ ⌊q⌋ := by rw [h]; exact Int.natCast_nonneg j
  rw [truncQ_of_nonneg (Int.floor_nonneg.mp h0), h]

theorem vecAt_natCast {α : Type} (v : List α) (j : Nat) : vecAt v (j : Int) = v[j]? := by
  simp [vecAt]

/-- The read `waves[i][j]` of the compositor when both indices are in range. -/
theorem lookup_inRange (waves : List (List Vector2)) (i j : Nat) (w : List Vector2)
    (hw : waves[i]? = some w) (hj : j < w.length) :
    ∃ p : Vector2, (waves[i]?).bind (fun wave => vecAt wave (j : Int)) = some p ∧
      p.y = waveY waves i j := by
  refine ⟨w[j], ?_, ?_⟩
  · rw [hw, Option.some_bind, vecAt_natCast, List.getElem?_eq_getElem hj]
  · unfold waveY
    simp only [List.getD_eq_getElem?_getD, hw, Option.getD_some, List.getElem?_eq_getElem hj]

theorem pixelLoop_succ (n : Nat) (x y : ℚ) (waves : List (List Vector2))
    (gradient : List Color) (k i : Nat) (p : Vector2)
    (h : (waves[i]?).bind (fun wave => vecAt wave (truncQ (x * WAVE_SMOOTHNESS))) = some p) :
    pixelLoop n x y waves gradient (k + 1) i
      = if y ≤ p.y then gradient[i]? else pixelLoop n x y waves gradient k (i + 1) := by
  simp only [pixelLoop, h]

theorem pixelLoop_outOfRange (n : Nat) (x y : ℚ) (waves : List (List Vector2))
    (gradient : List Color) (k i : Nat)
    (h : (waves[i]?).bind (fun wave => vecAt wave (truncQ (x * WAVE_SMOOTHNESS))) = none) :
    pixelLoop n x y waves gradient (k + 1) i = none := by
  simp only [pixelLoop, h]

/-- The loop returns the gradient entry of the first wave, from `i` on, whose sample
at column `j` is at or below the pixel, and entry `n` when the loop runs out. -/
theorem pixelLoop_first (n : Nat) (x y : ℚ) (waves : List (List Vector2))
    (gradient : List Color) (j : Nat) (hj : truncQ (x * WAVE_SMOOTHNESS) = (j : Int))
    (k i : Nat)
    (hr : ∀ m, i ≤ m → m < i + k → ∃ w : List Vector2, waves[m]? = some w ∧ j < w.length) :
    ∃ m, i ≤ m ∧ m ≤ i + k ∧ (∀ t, i ≤ t → t < m → ¬ y ≤ waveY waves t j) ∧
      (m < i + k → y ≤ waveY waves m j ∧
        pixelLoop n x y waves gradient k i = gradient[m]?) ∧
      (m = i + k → pixelLoop n x y waves gradient k i = gradient[n]?) := by
  induction k generalizing i with
  | zero =>
    refine ⟨i, le_refl _, le_refl _, ?_, ?_, ?_⟩
    · intro t h1 h2; omega
    · intro h; omega
    · intro _; rfl
  | succ k ih =>
    obtain ⟨w, hw, hjw⟩ := hr i (le_refl _) (by omega)
    obtain ⟨p, hp, hpy⟩ := lookup_inRange waves i j w hw hjw
    rw [← hj] at hp
    rw [pixelLoop_succ n x y waves gradient k i p hp, hpy]
    by_cases hy : y ≤ waveY waves i j
    · refine ⟨i, le_refl _, by omega, ?_, ?_, ?_⟩
      · intro t h1 h2; omega
      · intro _; exact ⟨hy, if_pos hy⟩
      · intro h; omega
    · obtain ⟨m, hm1, hm2, hm3, hm4, hm5⟩ :=
        ih (i + 1) (fun m h1 h2 => hr m (by omega) (by omega))
      refine ⟨m, by omega, by omega, ?_, ?_, ?_⟩
      · intro t h1 h2
        by_cases ht : t = i
        · rw [ht]; exact hy
        · exact hm3 t (by omega) h2
      · intro h
        rw [if_neg hy]
        exact hm4 (by omega)
      · intro h
        rw [if_neg hy]
        exact hm5 (by omega)

theorem calculatePixelColorFor_first (n : Nat) (position : Vector2)
    (waves : List (List Vector2)) (gradient : List Color) (j : Nat)
    (hj : truncQ (position.x * WAVE_SMOOTHNESS) = (j : Int))
    (hr : ∀ i, i < n → ∃ w : List Vector2, waves[i]? = some w ∧ j < w.length) :
    ∃ m, m ≤ n ∧ calculatePixelColorFor n position waves gradient = gradient[m]? ∧
      (∀ t, t < m → ¬ position.y ≤ waveY waves t j) ∧
      (m < n → position.y ≤ waveY waves m j) := by
  obtain ⟨m, -, hm2, hm3, hm4, hm5⟩ :=
    pixelLoop_first n position.x position.y waves gradient j hj n 0
      (fun m _ h2 => hr m (by omega))
  refine ⟨m, by omega, ?_, fun t ht => hm3 t (Nat.zero_le _) ht, fun h => (hm4 (by omega)).1⟩
  unfold calculatePixelColorFor
  by_cases h : m < n
  · exact (hm4 (by omega)).2
  · have : m = n := by omega
    rw [hm5 (by omega), this]

theorem countP_range_initial (P : Nat → Bool) (n m : Nat) (hm : m ≤ n)
    (h1 : ∀ i, i < m → P i = true) (h2 : ∀ i, m ≤ i → i < n → P i = false) :
    (List.range n).countP P = m := by
  induction n generalizing m with
  | zero =>
    have : m = 0 := by omega
    simp [this]
  | succ n ih =>
    rw [List.range_succ, List.countP_append]
    by_cases hmn : m ≤ n
    · rw [ih m hmn h1 (fun i hi1 hi2 => h2 i hi1 (by omega))]
      simp [h2 n hmn (by omega)]
    · have hmeq : m = n + 1 := by omega
      rw [ih n (le_refl _) (fun i hi => h1 i (by omega)) (fun i hi1 hi2 => by omega)]
      simp [h1 n (by omega), hmeq]

theorem stackedAt_le (n : Nat) (waves : List (List Vector2)) (j : Nat)
    (hs : StackedAt n waves j) (a b : Nat) (hab : a ≤ b) (hb : b < n) :
    waveY waves a j ≤ waveY waves b j := by
  induction b with
  | zero =>
    have : a = 0 := by omega
    rw [this]
  | succ b ih =>
    by_cases h : a = b + 1
    · rw [h]
    · exact le_trans (ih (by omega) (by omega)) (hs b hb)

theorem flatWaves_inRange (i : Nat) (hi : i < 3) :
    ∃ w : List Vector2, flatWaves[i]? = some w ∧ 8 < w.length := by
  interval_cases i <;> simp [flatWaves]

theorem flatWaves_stacked : StackedAt 3 flatWaves 8 := by
  intro i hi
  have h : i = 0 ∨ i = 1 := by omega
  rcases h with h | h <;> subst h <;> norm_num [waveY, flatWaves]

/-- C5: for every pixel whose sampling index `j = floor(x * WAVE_SMOOTHNESS)` is in
range of every wave, `calculatePixelColor` returns `gradient[m]` for the smallest wave
index `m < NUM_WAVES` with `y <= waves[m][j].y`, and returns `gradient[NUM_WAVES]`
exactly when no wave satisfies `y <= waves[i][j].y`. -/
theorem calculatePixelColor_first_wave (position : Vector2) (waves : List (List Vector2))
    (gradient : List Color) (j : Nat)
    (hj : ⌊position.x * WAVE_SMOOTHNESS⌋ = (j : Int))
    (hr : ∀ i, i < NUM_WAVES → ∃ w : List Vector2, waves[i]? = some w ∧ j < w.length)
    (hg : gradient.length = NUM_WAVES + 1) :
    ∃ m, m ≤ NUM_WAVES ∧
      (∃ col, gradient[m]? = some col ∧
        calculatePixelColor position waves gradient = some col) ∧
      (∀ t, t < m → ¬ position.y ≤ waveY waves t j) ∧
      (m < NUM_WAVES → position.y ≤ waveY waves m j) ∧
      (m = NUM_WAVES ↔ ∀ i, i < NUM_WAVES → ¬ position.y ≤ waveY waves i j) := by
  obtain ⟨m, hm, hres, hbefore, hat⟩ :=
    calculatePixelColorFor_first NUM_WAVES position waves gradient j (truncQ_of_floor_eq hj) hr
  have hlt : m < gradient.length := by omega
  refine ⟨m, hm, ⟨gradient[m], List.getElem?_eq_getElem hlt, ?_⟩, hbefore, hat, ?_⟩
  · unfold calculatePixelColor
    rw [hres, List.getElem?_eq_getElem hlt]
  · constructor
    · intro h i hi
      exact hbefore i (by omega)
    · intro h
      by_contra hne
      exact h m (by omega) (hat (by omega))

theorem calculatePixelColor_first_wave_witness :
    (⌊(⟨2, 25⟩ : Vector2).x * WAVE_SMOOTHNESS⌋ = ((8 : Nat) : Int)) ∧
    (greyGradient.length = NUM_WAVES + 1) ∧
    ∃ m, m ≤ NUM_WAVES ∧
      (∃ col, greyGradient[m]? = some col ∧
        calculatePixelColor ⟨2, 25⟩ flatWaves greyGradient = some col) ∧
      (∀ t, t < m → ¬ (⟨2, 25⟩ : Vector2).y ≤ waveY flatWaves t 8) ∧
      (m < NUM_WAVES → (⟨2, 25⟩ : Vector2).y ≤ waveY flatWaves m 8) ∧
      (m = NUM_WAVES ↔ ∀ i, i < NUM_WAVES → ¬ (⟨2, 25⟩ : Vector2).y ≤ waveY flatWaves i 8) :=
  ⟨by norm_num [WAVE_SMOOTHNESS], by decide,
    calculatePixelColor_first_wave ⟨2, 25⟩ flatWaves greyGradient 8
      (by norm_num [WAVE_SMOOTHNESS]) flatWaves_inRange (by decide)⟩

/-- C6 (counterexample): on the waves `generateWaves` produces (length 6400), the pixel
at the right edge `x = 1600` has sampling index `6400`, which the code uses unclamped:
the read of wave 0 is out of range and no gradient colour is returned; likewise for
`x = -1`, whose index is `-4`. -/
theorem calculatePixelColor_unclamped :
    truncQ ((⟨1600, 0⟩ : Vector2).x * WAVE_SMOOTHNESS) = 6400 ∧
    truncQ ((⟨-1, 0⟩ : Vector2).x * WAVE_SMOOTHNESS) = -4 ∧
    (∃ w : List Vector2, (generateWaves sampleEnv)[0]? = some w ∧ w.length = 6400) ∧
    calculatePixelColor ⟨1600, 0⟩ (generateWaves sampleEnv) greyGradient = none ∧
    calculatePixelColor ⟨-1, 0⟩ (generateWaves sampleEnv) greyGradient = none := by
  obtain ⟨w, hw, hlen, -⟩ := generateWaves_getElem? sampleEnv 0 (by decide)
  have hlen6 : w.length = 6400 := hlen
  have h1 : truncQ ((⟨1600, 0⟩ : Vector2).x * WAVE_SMOOTHNESS) = 6400 := by
    have : (⟨1600, 0⟩ : Vector2).x * WAVE_SMOOTHNESS = ((6400 : Nat) : ℚ) := by
      norm_num [WAVE_SMOOTHNESS]
    rw [this, truncQ_natCast]
    rfl
  have h2 : truncQ ((⟨-1, 0⟩ : Vector2).x * WAVE_SMOOTHNESS) = -4 := by
    have : (⟨-1, 0⟩ : Vector2).x * WAVE_SMOOTHNESS = ((-4 : Int) : ℚ) := by
      norm_num [WAVE_SMOOTHNESS]
    rw [this]
    unfold truncQ
    rw [if_neg (by norm_num), Int.ceil_intCast]
  refine ⟨h1, h2, ⟨w, hw, hlen6⟩, ?_, ?_⟩
  · unfold calculatePixelColor calculatePixelColorFor
    apply pixelLoop_outOfRange
    rw [hw, Option.some_bind, h1]
    have : (6400 : Int) = ((6400 : Nat) : Int) := rfl
    rw [this, vecAt_natCast]
    exact List.getElem?_eq_none (by omega)
  · unfold calculatePixelColor calculatePixelColorFor
    apply pixelLoop_outOfRange
    rw [hw, Option.some_bind, h2]
    simp [vecAt]

/-- C6 (amended): `calculatePixelColor` reads every wave at the unclamped index
`trunc(x * WAVE_SMOOTHNESS)`; whenever that index is within the valid range
`[0, wave length - 1]` of every wave, it returns one of the gradient colours. -/
theorem calculatePixelColor_of_index_inRange (position : Vector2)
    (waves : List (List Vector2)) (gradient : List Color) (j : Nat)
    (hj : truncQ (position.x * WAVE_SMOOTHNESS) = (j : Int))
    (hr : ∀ i, i < NUM_WAVES → ∃ w : List Vector2, waves[i]? = some w ∧ j < w.length)
    (hg : gradient.length = NUM_WAVES + 1) :
    ∃ m, m ≤ NUM_WAVES ∧ ∃ col, gradient[m]? = some col ∧
      calculatePixelColor position waves gradient = some col := by
  obtain ⟨m, hm, hres, -, -⟩ :=
    calculatePixelColorFor_first NUM_WAVES position waves gradient j hj hr
  have hlt : m < gradient.length := by omega
  refine ⟨m, hm, gradient[m], List.getElem?_eq_getElem hlt, ?_⟩
  unfold calculatePixelColor
  rw [hres, List.getElem?_eq_getElem hlt]

theorem calculatePixelColor_of_index_inRange_witness :
    (truncQ ((⟨-1 / 8, 15⟩ : Vector2).x * WAVE_SMOOTHNESS) = ((0 : Nat) : Int)) ∧
    (greyGradient.length = NUM_WAVES + 1) ∧
    ∃ m, m ≤ NUM_WAVES ∧ ∃ col, greyGradient[m]? = some col ∧
      calculatePixelColor ⟨-1 / 8, 15⟩ flatWaves greyGradient = some col :=
  ⟨by norm_num [truncQ, WAVE_SMOOTHNESS], by decide,
    calculatePixelColor_of_index_inRange ⟨-1 / 8, 15⟩ flatWaves greyGradient 0
      (by norm_num [truncQ, WAVE_SMOOTHNESS])
      (fun i hi => by
        obtain ⟨w, hw, hl⟩ := flatWaves_inRange i hi
        exact ⟨w, hw, by omega⟩)
      (by decide)⟩

/-- C7: band rule. For a program with `n` waves and a pixel whose sampling column `j`
is in range of every wave: if the waves are stacked at `j`, the compositor returns
`gradient[k]` with `k` the number of waves whose sample at `j` is strictly above the
pixel (this is `calculatePixelColor` for `n = NUM_WAVES`); if the first wave is flat at
height `H`, every pixel with `y <= H` receives `gradient[0]`; and with exactly one
wave (`n = 1`), flat at height `H`, every pixel with `y > H` receives `gradient[1]`. -/
theorem calculatePixelColor_band_rule (n : Nat) (position : Vector2)
    (waves : List (List Vector2)) (gradient : List Color) (j : Nat)
    (hj : ⌊position.x * WAVE_SMOOTHNESS⌋ = (j : Int))
    (hr : ∀ i, i < n → ∃ w : List Vector2, waves[i]? = some w ∧ j < w.length) :
    (StackedAt n waves j →
      calculatePixelColorFor n position waves gradient
        = gradient[(List.range n).countP (fun i => decide (waveY waves i j < position.y))]?) ∧
    (n = NUM_WAVES → StackedAt n waves j →
      calculatePixelColor position waves gradient
        = gradient[(List.range n).countP (fun i => decide (waveY waves i j < position.y))]?) ∧
    (∀ H : ℚ, 0 < n → (∀ p ∈ waves.getD 0 [], p.y = H) → position.y ≤ H →
      calculatePixelColorFor n position waves gradient = gradient[0]?) ∧
    (∀ H : ℚ, n = 1 → (∀ p ∈ waves.getD 0 [], p.y = H) → H < position.y →
      calculatePixelColorFor n position waves gradient = gradient[1]?) := by
  obtain ⟨m, hm, hres, hbefore, hat⟩ :=
    calculatePixelColorFor_first n position waves gradient j (truncQ_of_floor_eq hj) hr
  have band : StackedAt n waves j →
      calculatePixelColorFor n position waves gradient
        = gradient[(List.range n).countP
            (fun i => decide (waveY waves i j < position.y))]? := by
    intro hs
    rw [countP_range_initial _ n m hm, hres]
    · intro i hi
      exact decide_eq_true (lt_of_not_ge (hbefore i hi))
    · intro i hi1 hi2
      have h1 : position.y ≤ waveY waves m j := hat (by omega)
      have h2 : waveY waves m j ≤ waveY waves i j := stackedAt_le n waves j hs m i hi1 hi2
      exact decide_eq_false (not_lt.mpr (le_trans h1 h2))
  have flat : ∀ H : ℚ, 0 < n → (∀ p ∈ waves.getD 0 [], p.y = H) → waveY waves 0 j = H := by
    intro H hn hflat
    obtain ⟨w, hw, hjw⟩ := hr 0 hn
    have hw0 : waves.getD 0 [] = w := by
      simp only [List.getD_eq_getElem?_getD, hw, Option.getD_some]
    unfold waveY
    rw [hw0, List.getD_eq_getElem?_getD, List.getElem?_eq_getElem hjw, Option.getD_some]
    exact hflat _ (by rw [hw0]; exact List.getElem_mem hjw)
  refine ⟨band, ?_, ?_, ?_⟩
  · intro hn hs
    unfold calculatePixelColor
    rw [← hn]
    exact band hs
  · intro H hn hflat hy
    have hm0 : m = 0 := by
      by_contra hne
      exact hbefore 0 (by omega) (by rw [flat H hn hflat]; exact hy)
    rw [hres, hm0]
  · intro H hn hflat hy
    have hm1 : m = 1 := by
      by_contra hne
      have hlt : m < n := by omega
      have h0 : m = 0 := by omega
      have := hat hlt
      rw [h0, flat H (by omega) hflat] at this
      exact absurd this (not_le.mpr hy)
    rw [hres, hm1]

theorem calculatePixelColor_band_rule_witness :
    (⌊(⟨2, 25⟩ : Vector2).x * WAVE_SMOOTHNESS⌋ = ((8 : Nat) : Int)) ∧
    StackedAt 3 flatWaves 8 ∧
    calculatePixelColor ⟨2, 25⟩ flatWaves greyGradient
      = greyGradient[(List.range 3).countP
          (fun i => decide (waveY flatWaves i 8 < (⟨2, 25⟩ : Vector2).y))]? ∧
    calculatePixelColorFor 3 ⟨2, 5⟩ flatWaves greyGradient = greyGradient[0]? ∧
    calculatePixelColorFor 1 ⟨2, 25⟩ [List.replicate 9 ⟨0, 10⟩] greyGradient
      = greyGradient[1]? :=
  ⟨by norm_num [WAVE_SMOOTHNESS], flatWaves_stacked,
    (calculatePixelColor_band_rule 3 ⟨2, 25⟩ flatWaves greyGradient 8
      (by norm_num [WAVE_SMOOTHNESS]) flatWaves_inRange).2.1 rfl flatWaves_stacked,
    (calculatePixelColor_band_rule 3 ⟨2, 5⟩ flatWaves greyGradient 8
      (by norm_num [WAVE_SMOOTHNESS]) flatWaves_inRange).2.2.1 10 (by decide)
      (by simp [flatWaves]) (by norm_num),
    (calculatePixelColor_band_rule 1 ⟨2, 25⟩ [List.replicate 9 ⟨0, 10⟩] greyGradient 8
      (by norm_num [WAVE_SMOOTHNESS])
      (fun i hi => by
        have : i = 0 := by omega
        subst this
        simp)).2.2.2 10 rfl (by simp) (by norm_num)⟩

theorem mem_framePixels (position : Vector2) :
    position ∈ framePixels ↔
      ∃ x y : Nat, x < WIDTH ∧ y < HEIGHT ∧ position = ⟨(x : ℚ), (y : ℚ)⟩ := by
  unfold framePixels
  simp only [List.mem_flatMap, List.mem_map, List.mem_range]
  constructor
  · rintro ⟨y, hy, x, hx, h⟩
    exact ⟨x, y, hx, hy, h.symm⟩
  · rintro ⟨x, y, hx, hy, h⟩
    exact ⟨y, hy, x, hx, h.symm⟩

/-- C9: for every pixel the render loop composites (integer `x` with `0 <= x < WIDTH`,
integer `y` with `0 <= y < HEIGHT`) and every wave set produced by `generateWaves`
(each wave of length `WAVE_SMOOTHNESS * WIDTH = 6400`), the unclamped sampling index
`j = x * WAVE_SMOOTHNESS` satisfies `0 <= j < wave length`, so the read is in range and
the colour returned is `gradient[m]` for an index `m` within `0..NUM_WAVES`. -/
theorem render_loop_index_inRange (env : Env) (gradient : List Color) (position : Vector2)
    (hp : position ∈ framePixels) (hg : gradient.length = NUM_WAVES + 1) :
    ∃ x y j : Nat, x < WIDTH ∧ y < HEIGHT ∧ position = ⟨(x : ℚ), (y : ℚ)⟩ ∧
      truncQ (position.x * WAVE_SMOOTHNESS) = (j : Int) ∧ j = 4 * x ∧
      (∀ i, i < NUM_WAVES → ∃ w : List Vector2,
        (generateWaves env)[i]? = some w ∧ w.length = 6400 ∧ j < w.length) ∧
      ∃ m, m ≤ NUM_WAVES ∧ ∃ col, gradient[m]? = some col ∧
        calculatePixelColor position (generateWaves env) gradient = some col := by
  obtain ⟨x, y, hx, hy, hpos⟩ := (mem_framePixels position).mp hp
  have hx' : x < 1600 := hx
  have hj : truncQ (position.x * WAVE_SMOOTHNESS) = ((4 * x : Nat) : Int) := by
    have : position.x * WAVE_SMOOTHNESS = ((4 * x : Nat) : ℚ) := by
      rw [hpos]
      norm_num [WAVE_SMOOTHNESS]
      ring
    rw [this, truncQ_natCast]
  have hr : ∀ i, i < NUM_WAVES → ∃ w : List Vector2,
      (generateWaves env)[i]? = some w ∧ w.length = 6400 ∧ 4 * x < w.length := by
    intro i hi
    obtain ⟨w, hw, hlen, -⟩ := generateWaves_getElem? env i hi
    have hlen6 : w.length = 6400 := hlen
    exact ⟨w, hw, hlen6, by omega⟩
  obtain ⟨m, hm, hres, -, -⟩ :=
    calculatePixelColorFor_first NUM_WAVES position (generateWaves env) gradient (4 * x) hj
      (fun i hi => by
        obtain ⟨w, hw, -, hl⟩ := hr i hi
        exact ⟨w, hw, hl⟩)
  have hlt : m < gradient.length := by omega
  refine ⟨x, y, 4 * x, hx, hy, hpos, hj, rfl, hr, m, hm, gradient[m],
    List.getElem?_eq_getElem hlt, ?_⟩
  unfold calculatePixelColor
  rw [hres, List.getElem?_eq_getElem hlt]

theorem render_loop_index_inRange_witness :
    ((⟨1599, 899⟩ : Vector2) ∈ framePixels) ∧ (greyGradient.length = NUM_WAVES + 1) ∧
    ∃ x y j : Nat, x < WIDTH ∧ y < HEIGHT ∧
      (⟨1599, 899⟩ : Vector2) = ⟨(x : ℚ), (y : ℚ)⟩ ∧
      truncQ ((⟨1599, 899⟩ : Vector2).x * WAVE_SMOOTHNESS) = (j : Int) ∧ j = 4 * x ∧
      (∀ i, i < NUM_WAVES → ∃ w : List Vector2,
        (generateWaves sampleEnv)[i]? = some w ∧ w.length = 6400 ∧ j < w.length) ∧
      ∃ m, m ≤ NUM_WAVES ∧ ∃ col, greyGradient[m]? = some col ∧
        calculatePixelColor ⟨1599, 899⟩ (generateWaves sampleEnv) greyGradient = some col :=
  ⟨(mem_framePixels _).mpr ⟨1599, 899, by decide, by decide, by norm_num⟩, by decide,
    render_loop_index_inRange sampleEnv greyGradient ⟨1599, 899⟩
      ((mem_framePixels _).mpr ⟨1599, 899, by decide, by decide, by norm_num⟩) (by decide)⟩

end Chromatica
